import Mathlib

/-!
Verification development for the solidair concept-matching and
query-templating pipeline.

The Go sources are shallowly embedded: Go strings are modelled as lists of
characters (`Str`), Go slices as Lean lists, Go maps as association lists
whose iteration order — unspecified in Go — is made an explicit parameter
wherever the code iterates over a map.  `float32` values are modelled by
rationals; the square root used inside `CosineSimilarity` is an explicit
function parameter `sqrtFn` (an uninterpreted stand-in for `math.Sqrt`,
about which we only ever assume `sqrtFn 0 = 0`, which IEEE-754 guarantees).
The tree-sitter structural-query primitive is out of scope per the spec and
is modelled as an oracle `exec` mapping a compiled pattern to the list of
per-match first captures (`none` models a compile failure).
-/

set_option maxRecDepth 2000

namespace Solidair

/-- Model of a Go string: a list of characters. -/
abbrev Str := List Char

/-- Convenience conversion from a Lean string literal to the model type. -/
def strOf (s : String) : Str := s.data

/-- Character class of the Go regexp escape for whitespace
(space, tab, newline, form feed, carriage return). -/
def isGoSpace (c : Char) : Bool :=
  c = ' ' || c = '\t' || c = '\n' || c = '\x0c' || c = '\r'

/-- ASCII subset of the Unicode whitespace recognised by Go strings.TrimSpace. -/
def isTrimSpace (c : Char) : Bool :=
  c = ' ' || c = '\t' || c = '\n' || c = '\x0b' || c = '\x0c' || c = '\r'

/-- Go strings.TrimSpace restricted to ASCII whitespace. -/
def trimSpace (s : Str) : Str :=
  ((s.dropWhile isTrimSpace).reverse.dropWhile isTrimSpace).reverse

/-- Splitting a string at every occurrence of a separator character,
as Go strings.Split does for a one-character separator. -/
def splitOnChar (sep : Char) : Str → List Str
  | [] => [[]]
  | c :: rest =>
    match splitOnChar sep rest with
    | [] => if c = sep then [[], [c]] else [[c]]
    | h :: t => if c = sep then [] :: h :: t else (c :: h) :: t

/-- Lines of a string, as the multiline regexp anchors see them. -/
def splitLines (s : Str) : List Str := splitOnChar '\n' s

/-- First character class of the placeholder identifier grammar. -/
def isIdentStart (c : Char) : Bool := c.isAlpha || c = '_'

/-- Remaining character class of the placeholder identifier grammar. -/
def isIdentChar (c : Char) : Bool := c.isAlphanum || c = '_'

/-- Loop of Go strings.ReplaceAll, structurally recursive on a fuel that
bounds the number of scanning steps; every step consumes at least one
character, so fuel equal to the subject length is always sufficient and
the fuel case 0 with a nonempty subject is never reached from
`replaceAll`. -/
def replaceAllAux (pat rep : Str) : Nat → Str → Str
  | 0, s => s
  | _ + 1, [] => []
  | fuel + 1, c :: rest =>
    if pat ≠ [] ∧ pat.isPrefixOf (c :: rest) then
      rep ++ replaceAllAux pat rep fuel ((c :: rest).drop pat.length)
    else
      c :: replaceAllAux pat rep fuel rest

/-- Go strings.ReplaceAll: replace every non-overlapping occurrence of
`pat` in the subject, scanning left to right.  (The queries never use an
empty pattern; for an empty pattern this model leaves the subject
unchanged, which the development never relies on.) -/
def replaceAll (pat rep s : Str) : Str := replaceAllAux pat rep s.length s

/-- Attempt to read a placeholder body directly after a dollar sign:
an opening brace, an identifier, a closing brace.  Returns the identifier
and the remainder of the input after the closing brace. -/
def tryPlaceholder : Str → Option (Str × Str)
  | '{' :: c :: r =>
    if isIdentStart c then
      match r.dropWhile isIdentChar with
      | '}' :: rem => some (c :: r.takeWhile isIdentChar, rem)
      | _ => none
    else none
  | _ => none

/-- Loop of the placeholder scan, structurally recursive on a fuel that
bounds the number of scanning steps; every step consumes at least one
character (a successful placeholder consumes at least four), so fuel
equal to the input length is always sufficient. -/
def scanPlaceholdersAux : Nat → Str → List Str
  | 0, _ => []
  | _ + 1, [] => []
  | fuel + 1, c :: rest =>
    if c = '$' then
      match tryPlaceholder rest with
      | some (name, rem) => name :: scanPlaceholdersAux fuel rem
      | none => scanPlaceholdersAux fuel rest
    else
      scanPlaceholdersAux fuel rest

/-- Scan for every placeholder token of the form dollar-brace-identifier-brace,
left to right, non-overlapping, exactly as the Go regexp
FindAllStringSubmatch does for the placeholder pattern.  Returns the
identifier of each occurrence in order. -/
def scanPlaceholders (s : Str) : List Str := scanPlaceholdersAux s.length s

/-- The literal text of a placeholder token for a concept name. -/
def placeholderToken (c : Str) : Str := '$' :: '{' :: (c ++ ['}'])

/-- Capture of the Go regexp `(.+)` part of a metadata line after the
greedy whitespace star, including its backtracking behaviour on a
whitespace-only tail. -/
def metaCapture (tail : Str) : Option Str :=
  if tail = [] then none
  else
    match tail.dropWhile isGoSpace with
    | [] => some (tail.drop (tail.length - 1))
    | v => some v

/-- Match one line against the metadata regexp
semicolon, whitespace, key, whitespace, capture. -/
def parseMetaValue (key : Str) (line : Str) : Option Str :=
  match line with
  | [] => none
  | c :: rest =>
    if c = ';' then
      let r1 := rest.dropWhile isGoSpace
      if key.isPrefixOf r1 then metaCapture (r1.drop key.length) else none
    else none

/-- First metadata match in the whole query text, line by line, as the
multiline anchored regexp finds it. -/
def findMeta (key : Str) (content : Str) : Option Str :=
  (splitLines content).findSome? (parseMetaValue key)

/-- Insertion-ordered key set of a Go map built by repeated insertion. -/
def dedupFirst (l : List Str) : List Str :=
  l.foldl (fun acc n => if n ∈ acc then acc else acc ++ [n]) []

/-- Embedding: a vector embedding for a variable or concept.  float32
components are modelled by rationals. -/
structure Embedding where
  Vector : List ℚ
deriving DecidableEq

/-- SecurityConcept: a security-related concept with its embedding. -/
structure SecurityConcept where
  Name : Str
  Description : Str
  Synonyms : List Str
  Embedding : Embedding
deriving DecidableEq

/-- EmbeddingEntry: an embedding with its concept name, as stored in the
embeddings file. -/
structure EmbeddingEntry where
  ConceptName : Str
  Embedding : Embedding
deriving DecidableEq

/-- VariableInfo: information about an extracted variable.  The Go field
named Type is called Typ here because Type is reserved in Lean. -/
structure VariableInfo where
  Name : Str
  Typ : Str
  Context : Str
  ParentName : Str
  LineNumber : Nat
  Comments : List Str
deriving DecidableEq

/-- ConceptMatch: a match between a variable and a security concept. -/
structure ConceptMatch where
  Variable : VariableInfo
  Concept : Str
  SimilarityScore : ℚ
deriving DecidableEq

/-- QueryTemplate: a tree-sitter query with template parameters. -/
structure QueryTemplate where
  Name : Str
  Description : Str
  Concepts : List Str
  Source : Str
  Original : Str
  Parameters : List Str
deriving DecidableEq

/-- ParameterizedQuery: a query with actual parameter values. -/
structure ParameterizedQuery where
  Template : QueryTemplate
  Parameters : List (Str × Str)
  ProcessedQuery : Str
deriving DecidableEq

/-- The concept-match map produced by MatchVariables.  A Go map from
concept name to its list of matches; represented as an association list.
The code only ever looks this map up by key, so the representation order
is immaterial. -/
abbrev CMatches := List (Str × List ConceptMatch)

/-- Lookup in the concept-match map. -/
def lookupCM (m : CMatches) (key : Str) : Option (List ConceptMatch) :=
  match m with
  | [] => none
  | (k, vs) :: rest => if k = key then some vs else lookupCM rest key

/-- Append one match to the group of its concept, creating the group on
first use — the Go `result[match.Concept] = append(result[match.Concept], match)`. -/
def appendMatch (m : CMatches) (key : Str) (v : ConceptMatch) : CMatches :=
  match m with
  | [] => [(key, [v])]
  | (k, vs) :: rest =>
    if k = key then (k, vs ++ [v]) :: rest else (k, vs) :: appendMatch rest key v

/-- ParseQueryTemplate parses a query string to extract template
information (cmd/match.go).  The Go function's error result is always nil,
so the model is total. -/
def ParseQueryTemplate (queryContent source : Str) : QueryTemplate :=
  { Name := (findMeta (strOf "Name:") queryContent).getD []
    Description := (findMeta (strOf "Description:") queryContent).getD []
    Concepts :=
      match findMeta (strOf "Concepts:") queryContent with
      | none => []
      | some v => (splitOnChar ',' v).map trimSpace
    Source := source
    Original := queryContent
    Parameters := dedupFirst (scanPlaceholders queryContent) }

/-- Loop body of SubstituteParameters: walk the required concepts in
declaration order, accumulating the parameter map and rewriting the query
text; fail on the first concept with no match (the Go error return). -/
def substLoop (cm : CMatches) : List Str → List (Str × Str) → Str →
    Option (List (Str × Str) × Str)
  | [], params, q => some (params, q)
  | concept :: rest, params, q =>
    match lookupCM cm concept with
    | none => none
    | some [] => none
    | some (bestMatch :: _) =>
      let varName := bestMatch.Variable.Name
      substLoop cm rest (params ++ [(concept, varName)])
        (replaceAll (placeholderToken concept) varName q)

/-- SubstituteParameters replaces template parameters with actual variable
names (cmd/match.go).  `none` models the Go error return (the message is
only logged by the caller). -/
def SubstituteParameters (template : QueryTemplate) (cm : CMatches) :
    Option ParameterizedQuery :=
  (substLoop cm template.Concepts [] template.Original).map
    (fun pr => { Template := template, Parameters := pr.1, ProcessedQuery := pr.2 })

/-- ProcessTemplatedQueries (cmd/match.go): templates with no concepts are
skipped; failed substitutions are logged and skipped; the rest are
collected.  The Go map of templates is iterated in an unspecified order,
made explicit here as the order of the input list. -/
def ProcessTemplatedQueries (queryTemplates : List QueryTemplate) (cm : CMatches) :
    List ParameterizedQuery :=
  queryTemplates.filterMap
    (fun t => if t.Concepts = [] then none else SubstituteParameters t cm)

/-- CosineSimilarity (cmd/embeddings.go and the embedding package — the two
copies are textually identical).  `sqrtFn` stands for math.Sqrt. -/
def CosineSimilarity (sqrtFn : ℚ → ℚ) (a b : Embedding) : ℚ :=
  if a.Vector = [] ∨ b.Vector = [] then 0
  else if a.Vector.length ≠ b.Vector.length then 0
  else
    let dotProduct := (List.zipWith (· * ·) a.Vector b.Vector).sum
    let normA := sqrtFn ((a.Vector.map (fun x => x * x)).sum)
    let normB := sqrtFn ((b.Vector.map (fun x => x * x)).sum)
    if normA = 0 ∨ normB = 0 then 0
    else dotProduct / (normA * normB)

/-- getOfflineEmbedding: a three-dimensional vector derived from the byte
values of the name; index i holds name[i % len] / 255 when i < len, else 0.
Identifiers are ASCII, so Go byte indexing coincides with character
indexing here. -/
def getOfflineEmbedding (name : Str) : Embedding :=
  { Vector := (List.range 3).map (fun i =>
      if i < name.length then ((name.getD (i % name.length) ' ').toNat : ℚ) / 255
      else 0) }

/-- MatchVariable in offline mode: the embedding cache is never populated
in offline mode (GetVariableEmbedding returns the offline embedding without
caching), so every lookup misses and matching is stateless.  The matcher is
constructed with SimilarityThreshold 0.7.  Go sort.Slice is an unstable
sort; insertion sort realises one admissible order (no claim depends on the
relative order of one variable's matches across concepts). -/
def MatchVariableOffline (sqrtFn : ℚ → ℚ) (concepts : List SecurityConcept)
    (v : VariableInfo) : List ConceptMatch :=
  let varEmbedding := getOfflineEmbedding v.Name
  let ms := concepts.filterMap (fun c =>
    let similarity := CosineSimilarity sqrtFn varEmbedding c.Embedding
    if (7 : ℚ) / 10 ≤ similarity then
      some { Variable := v, Concept := c.Name, SimilarityScore := similarity }
    else none)
  List.insertionSort (fun m1 m2 => m2.SimilarityScore ≤ m1.SimilarityScore) ms

/-- MatchVariables in offline mode: per-variable matches grouped by concept
name, in variable order within each group. -/
def MatchVariablesOffline (sqrtFn : ℚ → ℚ) (concepts : List SecurityConcept)
    (vars : List VariableInfo) : CMatches :=
  vars.foldl (fun result v =>
    (MatchVariableOffline sqrtFn concepts v).foldl
      (fun r m => appendMatch r m.Concept m) result) []

/-- Capture: one identifier occurrence delivered by the fixed structural
extraction query, with its text and zero-based source row.  The
tree-sitter primitive is out of scope; its output stream is the input
here. -/
structure Capture where
  text : Str
  row : Nat
deriving DecidableEq

/-- Line number reported for a capture: uint32(row) + 1 with uint32
wraparound. -/
def lineOfRow (row : Nat) : Nat := (row % 2 ^ 32 + 1) % 2 ^ 32

/-- The VariableInfo record built for a capture (simplified context, as in
variables.go). -/
def mkVariableInfo (c : Capture) : VariableInfo :=
  { Name := c.text, Typ := [], Context := strOf "variable",
    ParentName := [], LineNumber := lineOfRow c.row, Comments := [] }

/-- Loop of ExtractVariables: the seen set skips duplicate texts; records
are appended in first-occurrence order. -/
def extractLoop : List Capture → List Str → List VariableInfo → List VariableInfo
  | [], _, acc => acc
  | c :: rest, seen, acc =>
    if c.text ∈ seen then extractLoop rest seen acc
    else extractLoop rest (c.text :: seen) (acc ++ [mkVariableInfo c])

/-- ExtractVariables (variables/variables.go): deduplicate captures by
exact text, first occurrence wins. -/
def ExtractVariables (captures : List Capture) : List VariableInfo :=
  extractLoop captures [] []

/-- Modelled from the spec wording for comparison with ExtractVariables:
one record per distinct identifier text encountered, first occurrence wins
for position. -/
def specFirstOccurrenceRecords (captures : List Capture) : List VariableInfo :=
  (captures.foldl
    (fun acc c => if acc.any (fun d => d.text = c.text) then acc else acc ++ [c])
    []).map mkVariableInfo

/-- QueryResult: a finding from running a query against the code
(cmd/analyze.go). -/
structure QueryResult where
  QueryName : Str
  QueryFile : Str
  Description : Str
  LineNumber : Nat
  Code : Str
deriving DecidableEq

/-- extractQueryPattern (cmd/analyze.go): drop blank and comment lines,
rejoin with newlines. -/
def extractQueryPattern (queryContent : Str) : Str :=
  List.intercalate ['\n'] ((splitLines queryContent).filter (fun line =>
    match trimSpace line with
    | [] => false
    | c :: _ => c != ';'))

/-- ExtractQueryMetadata (cmd/analyze.go): the Name and Description
metadata values (empty when absent). -/
def ExtractQueryMetadata (queryContent : Str) : Str × Str :=
  ((findMeta (strOf "Name:") queryContent).getD [],
   (findMeta (strOf "Description:") queryContent).getD [])

/-- filepath.Base for the query-name fallback. -/
def baseName (p : Str) : Str :=
  let trimmed := (p.reverse.dropWhile (fun c => c = '/')).reverse
  if trimmed = [] then (if p = [] then ['.'] else ['/'])
  else ((splitOnChar '/' trimmed).getLast?).getD trimmed

/-- filepath.Ext: the suffix of the final path element beginning at its
final dot, empty when the final element has no dot. -/
def extOf (p : Str) : Str :=
  let t := p.reverse.takeWhile (fun c => c ≠ '/')
  if '.' ∈ t then ((t.takeWhile (fun c => c ≠ '.')) ++ ['.']).reverse else []

/-- Go strings.TrimSuffix. -/
def trimSuffix (s suf : Str) : Str :=
  if suf.isSuffixOf s then s.take (s.length - suf.length) else s

/-- RunQueries (cmd/analyze.go).  The tree-sitter compile-and-match
primitive is the oracle `exec`: `none` models a compile failure (logged,
query skipped, run continues); `some ms` is the list of per-match first
captures (the Go loop reports only the first capture of each match).  The
Go map of queries is iterated in an unspecified order, made explicit here
as the order of the input list.  The Go function's error result is always
nil, so the model is total. -/
def RunQueries (exec : Str → Option (List Capture)) (queries : List (Str × Str)) :
    List QueryResult :=
  queries.flatMap (fun q =>
    let meta := ExtractQueryMetadata q.2
    let queryName :=
      if meta.1 = [] then trimSuffix (baseName q.1) (extOf q.1) else meta.1
    match exec (extractQueryPattern q.2) with
    | none => []
    | some ms => ms.map (fun cap =>
        { QueryName := queryName, QueryFile := q.1, Description := meta.2,
          LineNumber := lineOfRow cap.row, Code := cap.text }))

/-- analyzeSmartMain (cmd/analyze_smart.go), offline branch, after the
file has been read, parsed and its identifier captures extracted.  The two
Go map iterations (over the query files and over the parsed templates) are
realised by the single order of the `queries` list; in Go each is an
independent unspecified order over the same map. -/
def analyzeSmartOffline (sqrtFn : ℚ → ℚ) (concepts : List SecurityConcept)
    (captures : List Capture) (queries : List (Str × Str))
    (exec : Str → Option (List Capture)) : List QueryResult :=
  let vars := ExtractVariables captures
  let conceptMatches := MatchVariablesOffline sqrtFn concepts vars
  let queryTemplates := queries.map (fun q => ParseQueryTemplate q.2 q.1)
  let parameterizedQueries := ProcessTemplatedQueries queryTemplates conceptMatches
  let standardResults := RunQueries exec queries
  let templatedResults := parameterizedQueries.flatMap (fun pq =>
    (RunQueries exec [(pq.Template.Source, pq.ProcessedQuery)]).map
      (fun r => { r with QueryName := pq.Template.Name ++ strOf " (parametrized)" }))
  standardResults ++ templatedResults

/-- The query patterns handed to the structural-query executor by
analyzeSmartMain: every loaded query (the full map is passed to RunQueries
as the standard batch) followed by every parameterized query. -/
def analyzeSmartExecutedPatterns (sqrtFn : ℚ → ℚ) (concepts : List SecurityConcept)
    (captures : List Capture) (queries : List (Str × Str)) : List Str :=
  let vars := ExtractVariables captures
  let conceptMatches := MatchVariablesOffline sqrtFn concepts vars
  let queryTemplates := queries.map (fun q => ParseQueryTemplate q.2 q.1)
  let parameterizedQueries := ProcessTemplatedQueries queryTemplates conceptMatches
  queries.map (fun q => extractQueryPattern q.2) ++
    parameterizedQueries.map (fun pq => extractQueryPattern pq.ProcessedQuery)

/-- State of one file consulted by the concept loader: absent at Stat
time, or present but unreadable or unparsable, or present with parsed
content. -/
inductive FileState (α : Type) where
  | missing : FileState α
  | malformed : FileState α
  | ok : α → FileState α
deriving DecidableEq

/-- Whether Stat finds the file. -/
def FileState.found {α : Type} : FileState α → Bool
  | .missing => false
  | _ => true

/-- The file-system configuration LoadSecurityConcepts runs against. -/
structure ConceptFS where
  dirFound : Bool
  conceptsFile : FileState (List SecurityConcept)
  embeddingsFile : FileState (List EmbeddingEntry)
  legacySingleFile : FileState (List SecurityConcept)
  legacyMetadataFile : FileState (List SecurityConcept)
  legacySubdirFound : Bool
  legacyVectorFile : Str → FileState Embedding

/-- DefaultSecurityConcepts (pkg/concepts/concepts.go): the built-in
catalog, no embeddings. -/
def DefaultSecurityConcepts : List SecurityConcept :=
  [{ Name := strOf "active",
     Description := strOf "Concept representing whether a market is active/initialized",
     Synonyms := [strOf "enabled", strOf "live", strOf "activated",
                  strOf "initialized", strOf "ready"],
     Embedding := { Vector := [] } },
   { Name := strOf "locked",
     Description := strOf "Concept representing a reentrancy guard or mutex",
     Synonyms := [strOf "reentrancy_guard", strOf "mutex", strOf "guard",
                  strOf "semaphore"],
     Embedding := { Vector := [] } },
   { Name := strOf "grace_period",
     Description := strOf "Concept representing a waiting period or timelock",
     Synonyms := [strOf "timelock", strOf "delay", strOf "cooldown",
                  strOf "waiting_period"],
     Embedding := { Vector := [] } },
   { Name := strOf "admin",
     Description := strOf "Concept representing an administrative role or owner",
     Synonyms := [strOf "owner", strOf "administrator", strOf "authority",
                  strOf "governor"],
     Embedding := { Vector := [] } },
   { Name := strOf "min_deposit",
     Description := strOf "Concept representing a minimum deposit or liquidity threshold",
     Synonyms := [strOf "minimum_deposit", strOf "min_liquidity", strOf "threshold",
                  strOf "minimum_amount"],
     Embedding := { Vector := [] } },
   { Name := strOf "bounds_check",
     Description := strOf "Concept representing bounds checking or validations",
     Synonyms := [strOf "validation", strOf "assert", strOf "check", strOf "limit",
                  strOf "cap"],
     Embedding := { Vector := [] } },
   { Name := strOf "accumulator",
     Description := strOf "Concept representing an accumulator or counter",
     Synonyms := [strOf "counter", strOf "index", strOf "tally", strOf "tracker"],
     Embedding := { Vector := [] } },
   { Name := strOf "donation_cap",
     Description := strOf "Concept representing a cap on donations or contributions",
     Synonyms := [strOf "cap", strOf "limit", strOf "maximum", strOf "ceiling"],
     Embedding := { Vector := [] } }]

/-- Index targeted by the Go name-to-pointer map built over the concepts
slice: for duplicate names the later entry overwrites the map slot. -/
def lastIdxOf (cs : List SecurityConcept) (n : Str) : Option Nat :=
  ((List.range cs.length).filter (fun i =>
    match cs[i]? with
    | some c => c.Name = n
    | none => false)).getLast?

/-- Merge of the embeddings file into the concepts list (unknown concept
names are a logged warning and ignored). -/
def mergeEmbeddings (cs : List SecurityConcept) (es : List EmbeddingEntry) :
    List SecurityConcept :=
  es.foldl (fun acc e =>
    match lastIdxOf acc e.ConceptName with
    | some i =>
      match acc[i]? with
      | some c => acc.set i { c with Embedding := e.Embedding }
      | none => acc
    | none => acc) cs

/-- loadLegacySecurityConcepts: the single-file legacy format; a read or
parse failure of the located file is fatal. -/
def loadLegacySecurityConcepts (f : FileState (List SecurityConcept)) :
    Except Str (List SecurityConcept) :=
  match f with
  | .missing => .error (strOf "error reading security concepts TOML")
  | .malformed => .error (strOf "error parsing security concepts TOML")
  | .ok cs => .ok cs

/-- loadLegacyMetadataFormat: metadata file plus one vector file per
concept; a read or parse failure of the metadata file is fatal, while a
missing, unreadable or unparsable per-concept vector file is a logged
warning that leaves that concept without an embedding. -/
def loadLegacyMetadataFormat (fs : ConceptFS) : Except Str (List SecurityConcept) :=
  match fs.legacyMetadataFile with
  | .missing => .error (strOf "error reading concept metadata")
  | .malformed => .error (strOf "error parsing concept metadata")
  | .ok cs =>
    if fs.legacySubdirFound then
      .ok (cs.map (fun c =>
        match fs.legacyVectorFile c.Name with
        | .ok e => { c with Embedding := e }
        | _ => c))
    else .ok cs

/-- LoadSecurityConcepts (pkg/concepts/loader.go; cmd/embeddings.go holds
an identical copy): the layered fallback chain.  Under the split-file
layout a read or parse failure of the concepts file is fatal, while a read
or parse failure of the embeddings file is a logged warning and the
concepts are returned without embeddings. -/
def LoadSecurityConcepts (fs : ConceptFS) : Except Str (List SecurityConcept) :=
  if fs.dirFound then
    if !(fs.conceptsFile.found && fs.embeddingsFile.found) then
      if fs.legacySingleFile.found then loadLegacySecurityConcepts fs.legacySingleFile
      else if fs.legacyMetadataFile.found then loadLegacyMetadataFormat fs
      else .ok DefaultSecurityConcepts
    else
      match fs.conceptsFile with
      | .missing => .error (strOf "error reading concepts file")
      | .malformed => .error (strOf "error parsing concepts file")
      | .ok conceptsConfig =>
        match fs.embeddingsFile with
        | .missing => .ok conceptsConfig
        | .malformed => .ok conceptsConfig
        | .ok entries => .ok (mergeEmbeddings conceptsConfig entries)
  else .ok DefaultSecurityConcepts

/-- Lookup in the run-scoped embedding cache. -/
def assocLookup {β : Type} (m : List (Str × β)) (key : Str) : Option β :=
  match m with
  | [] => none
  | (k, v) :: rest => if k = key then some v else assocLookup rest key

/-- Result of one GetVariableEmbedding call, instrumented with how often
each underlying strategy was invoked by that call. -/
structure EmbedOutcome where
  value : Embedding
  cache : List (Str × Embedding)
  remoteCalls : Nat
  offlineCalls : Nat
deriving DecidableEq

/-- GetVariableEmbedding (cmd/embeddings.go and the embedding package —
identical copies): cache hit returns the cached vector; otherwise offline
mode computes the byte-derived vector and returns it WITHOUT storing it in
the cache, while remote mode calls the service (modelled by the oracle,
assumed to succeed — a failure aborts matching and never reaches the
cache) and stores the result.  The counters record the invocations of each
strategy made by this one call. -/
def GetVariableEmbedding (oracle : Str → Embedding) (offline : Bool)
    (cache : List (Str × Embedding)) (name : Str) : EmbedOutcome :=
  match assocLookup cache name with
  | some e => { value := e, cache := cache, remoteCalls := 0, offlineCalls := 0 }
  | none =>
    if offline then
      { value := getOfflineEmbedding name, cache := cache,
        remoteCalls := 0, offlineCalls := 1 }
    else
      let e := oracle name
      { value := e, cache := cache ++ [(name, e)],
        remoteCalls := 1, offlineCalls := 0 }

/-! Theorems. -/

/-- Claim C7: for all pairs of vectors, the similarity score returns
exactly 0 (and, being a total function, never errors) whenever either
vector is empty or the two vectors have different lengths. -/
theorem C7_cosine_zero_on_shape_mismatch (sqrtFn : ℚ → ℚ) (a b : Embedding)
    (h : a.Vector = [] ∨ b.Vector = [] ∨ a.Vector.length ≠ b.Vector.length) :
    CosineSimilarity sqrtFn a b = 0 := by
  unfold CosineSimilarity
  by_cases h1 : a.Vector = [] ∨ b.Vector = []
  · rw [if_pos h1]
  · rcases h with h | h | h
    · exact absurd (Or.inl h) h1
    · exact absurd (Or.inr h) h1
    · rw [if_neg h1, if_pos h]

/-- Witness for C7 at a concrete shape mismatch. -/
theorem C7_cosine_zero_on_shape_mismatch_witness :
    ((Embedding.mk [1]).Vector = [] ∨ (Embedding.mk [1, 2]).Vector = [] ∨
      (Embedding.mk [1]).Vector.length ≠ (Embedding.mk [1, 2]).Vector.length) ∧
    CosineSimilarity (fun q => q) (Embedding.mk [1]) (Embedding.mk [1, 2]) = 0 :=
  ⟨Or.inr (Or.inr (by decide)),
   C7_cosine_zero_on_shape_mismatch (fun q => q) (Embedding.mk [1]) (Embedding.mk [1, 2])
     (Or.inr (Or.inr (by decide)))⟩

/-- Claim C10: the similarity computation is total and division-guarded —
for equal nonzero lengths with one all-zero vector it returns 0 (the
computed norm is the square root of 0, which is 0, and the guard fires
before any division). -/
theorem C10_cosine_zero_vector_guard (sqrtFn : ℚ → ℚ) (h0 : sqrtFn 0 = 0)
    (a b : Embedding) (hne : a.Vector ≠ [])
    (hlen : a.Vector.length = b.Vector.length)
    (hz : (∀ x ∈ a.Vector, x = 0) ∨ (∀ x ∈ b.Vector, x = 0)) :
    CosineSimilarity sqrtFn a b = 0 := by
  have hbne : b.Vector ≠ [] := by
    intro hb
    rw [hb] at hlen
    exact hne (List.length_eq_zero.1 hlen)
  unfold CosineSimilarity
  rw [if_neg (by simp [hne, hbne]), if_neg (by simp [hlen])]
  rcases hz with hz | hz
  · have hs : ((a.Vector.map (fun x => x * x)).sum : ℚ) = 0 := by
      apply List.sum_eq_zero
      intro x hx
      obtain ⟨y, hy, rfl⟩ := List.mem_map.1 hx
      rw [hz y hy, mul_zero]
    simp [hs, h0]
  · have hs : ((b.Vector.map (fun x => x * x)).sum : ℚ) = 0 := by
      apply List.sum_eq_zero
      intro x hx
      obtain ⟨y, hy, rfl⟩ := List.mem_map.1 hx
      rw [hz y hy, mul_zero]
    simp [hs, h0]

/-- Witness for C10: the offline embedding of the empty identifier name is
the all-zero three-dimensional vector, and its similarity against any
equal-length vector is exactly 0. -/
theorem C10_cosine_zero_vector_guard_witness :
    (fun q : ℚ => q) 0 = 0 ∧
    CosineSimilarity (fun q => q) (getOfflineEmbedding []) (Embedding.mk [1, 2, 3]) = 0 :=
  ⟨rfl,
   C10_cosine_zero_vector_guard (fun q => q) rfl (getOfflineEmbedding [])
     (Embedding.mk [1, 2, 3]) (by decide) (by decide) (Or.inl (by decide))⟩

theorem assocLookup_append_self {β : Type} (m : List (Str × β)) (k : Str) (v : β)
    (h : assocLookup m k = none) : assocLookup (m ++ [(k, v)]) k = some v := by
  induction m with
  | nil => simp [assocLookup]
  | cons p rest ih =>
    cases p with
    | mk k1 v1 =>
      simp only [assocLookup] at h
      rw [List.cons_append]
      simp only [assocLookup]
      by_cases hk : k1 = k
      · rw [if_pos hk] at h
        exact absurd h (by simp)
      · rw [if_neg hk] at h ⊢
        exact ih h

/-- Claim C4, counterexample: with the offline strategy, the second call
for the same text re-invokes the offline byte-derived computation (the
offline result is never stored in the cache), contrary to the claim that
the underlying strategy is not re-invoked. -/
theorem C4_counterexample_offline_recomputes :
    (GetVariableEmbedding (fun _ => Embedding.mk []) true
      (GetVariableEmbedding (fun _ => Embedding.mk []) true [] (strOf "a")).cache
      (strOf "a")).offlineCalls ≠ 0 := by decide

/-- Claim C4 as amended: a second call for the same text returns a
bit-identical vector; the remote service is never invoked by the second
call (its result was cached); but the offline byte-derived computation is
re-invoked by the second call exactly as by the first, because offline
results are never cached. -/
theorem C4_amended_cache_behaviour (oracle : Str → Embedding) (offline : Bool)
    (cache : List (Str × Embedding)) (name : Str) :
    (GetVariableEmbedding oracle offline
        (GetVariableEmbedding oracle offline cache name).cache name).value =
      (GetVariableEmbedding oracle offline cache name).value ∧
    (GetVariableEmbedding oracle offline
        (GetVariableEmbedding oracle offline cache name).cache name).remoteCalls = 0 ∧
    (GetVariableEmbedding oracle offline
        (GetVariableEmbedding oracle offline cache name).cache name).offlineCalls =
      (GetVariableEmbedding oracle offline cache name).offlineCalls := by
  unfold GetVariableEmbedding
  cases h : assocLookup cache name with
  | some e => simp [h]
  | none =>
    cases offline with
    | true => simp [h]
    | false => simp [h, assocLookup_append_self cache name (oracle name) h]

theorem extractLoop_eq_foldl (caps : List Capture) :
    ∀ (seen : List Str) (accCaps : List Capture),
      (∀ t : Str, t ∈ seen ↔ ∃ d ∈ accCaps, d.text = t) →
      extractLoop caps seen (accCaps.map mkVariableInfo) =
        (caps.foldl
          (fun acc c => if acc.any (fun d => d.text = c.text) then acc else acc ++ [c])
          accCaps).map mkVariableInfo := by
  induction caps with
  | nil => intro seen accCaps _; simp [extractLoop]
  | cons c rest ih =>
    intro seen accCaps hinv
    simp only [extractLoop, List.foldl_cons]
    by_cases hc : c.text ∈ seen
    · have hany : accCaps.any (fun d => decide (d.text = c.text)) = true := by
        obtain ⟨d, hd, hdt⟩ := (hinv c.text).1 hc
        exact List.any_eq_true.2 ⟨d, hd, by simp [hdt]⟩
      rw [if_pos hc]
      simp only [hany, if_true]
      exact ih seen accCaps hinv
    · have hany : accCaps.any (fun d => decide (d.text = c.text)) = false := by
        rw [List.any_eq_false]
        intro d hd
        simp only [decide_eq_true_eq]
        intro hdt
        exact hc ((hinv c.text).2 ⟨d, hd, hdt⟩)
      rw [if_neg hc]
      simp only [hany, if_false]
      have hmap : (accCaps.map mkVariableInfo) ++ [mkVariableInfo c] =
          (accCaps ++ [c]).map mkVariableInfo := by
        rw [List.map_append, List.map_singleton]
      rw [hmap]
      apply ih (c.text :: seen) (accCaps ++ [c])
      intro t
      constructor
      · intro ht
        rcases List.mem_cons.1 ht with rfl | ht2
        · exact ⟨c, List.mem_append_right _ (List.mem_singleton_self c), rfl⟩
        · obtain ⟨d, hd, hdt⟩ := (hinv t).1 ht2
          exact ⟨d, List.mem_append_left _ hd, hdt⟩
      · rintro ⟨d, hd, hdt⟩
        rcases List.mem_append.1 hd with hd2 | hd2
        · exact List.mem_cons_of_mem _ ((hinv t).2 ⟨d, hd2, hdt⟩)
        · rw [List.mem_singleton.1 hd2] at hdt
          rw [← hdt]
          exact List.mem_cons_self _ _

/-- Claim C9: variable extraction returns exactly one record per distinct
identifier text, deduplicated by exact literal text, each record carrying
the position of the first occurrence in extraction order — ExtractVariables
coincides with the first-occurrence specification. -/
theorem C9_extract_dedup_first_occurrence (captures : List Capture) :
    ExtractVariables captures = specFirstOccurrenceRecords captures := by
  unfold ExtractVariables specFirstOccurrenceRecords
  have h := extractLoop_eq_foldl captures [] [] (by simp)
  simpa using h

/-- Whether one character list occurs as a contiguous substring of
another. -/
def containsSub (s sub : Str) : Bool :=
  (List.range (s.length + 1)).any (fun i => sub.isPrefixOf (s.drop i))

/-- Whether a loader result is the fatal-error outcome. -/
def exceptFatal {ε α : Type} : Except ε α → Bool
  | .error _ => true
  | .ok _ => false

/-- A concrete file system for claim C5: the embeddings directory and both
split-layout files are located, the concepts file parses, and the
embeddings file is malformed. -/
def fsC5 : ConceptFS :=
  { dirFound := true
    conceptsFile := .ok DefaultSecurityConcepts
    embeddingsFile := .malformed
    legacySingleFile := .missing
    legacyMetadataFile := .missing
    legacySubdirFound := false
    legacyVectorFile := fun _ => .missing }

/-- Claim C5, counterexample: a located but malformed embeddings file is
not fatal — the loader warns and returns the concepts without embeddings,
contrary to the claim that malformed content in a located file fails the
run. -/
theorem C5_counterexample_malformed_embeddings_not_fatal :
    fsC5.dirFound = true ∧ fsC5.embeddingsFile = FileState.malformed ∧
    LoadSecurityConcepts fsC5 = Except.ok DefaultSecurityConcepts :=
  ⟨rfl, rfl, rfl⟩

/-- Claim C5 as amended: loading fails with a fatal error exactly when a
located concepts or metadata file is malformed (split-layout concepts
file, legacy single file, or legacy metadata file); malformed embeddings
content (the split-layout embeddings file or a legacy per-concept vector
file) only degrades the affected concepts with a warning, and a missing
file is never fatal — the chain falls through on absence. -/
theorem C5_amended_fatal_iff_malformed_metadata (fs : ConceptFS) :
    exceptFatal (LoadSecurityConcepts fs) = true ↔
      (fs.dirFound = true ∧
        ((fs.conceptsFile.found = true ∧ fs.embeddingsFile.found = true ∧
            fs.conceptsFile = FileState.malformed) ∨
         (¬(fs.conceptsFile.found = true ∧ fs.embeddingsFile.found = true) ∧
            fs.legacySingleFile = FileState.malformed) ∨
         (¬(fs.conceptsFile.found = true ∧ fs.embeddingsFile.found = true) ∧
            fs.legacySingleFile.found = false ∧
            fs.legacyMetadataFile = FileState.malformed))) := by
  cases fs with
  | mk dir cf ef lsf lmf sub vec =>
    cases dir <;> cases cf <;> cases ef <;> cases lsf <;> cases lmf <;> cases sub <;>
      simp [LoadSecurityConcepts, FileState.found, loadLegacySecurityConcepts,
        loadLegacyMetadataFormat, exceptFatal]

theorem substLoop_none_of_missing {cm : CMatches} {c : Str} :
    ∀ {cs : List Str}, c ∈ cs → (lookupCM cm c = none ∨ lookupCM cm c = some []) →
      ∀ (params : List (Str × Str)) (q : Str), substLoop cm cs params q = none := by
  intro cs
  induction cs with
  | nil => intro h; cases h
  | cons c0 rest ih =>
    intro hc hmiss params q
    rcases List.mem_cons.1 hc with rfl | hr
    · rcases hmiss with h | h <;> simp [substLoop, h]
    · cases h0 : lookupCM cm c0 with
      | none => simp [substLoop, h0]
      | some l =>
        cases l with
        | nil => simp [substLoop, h0]
        | cons m ms => simp [substLoop, h0, ih hr hmiss]

theorem SubstituteParameters_none_of_missing {cm : CMatches} {t : QueryTemplate}
    {c : Str} (hc : c ∈ t.Concepts)
    (hmiss : lookupCM cm c = none ∨ lookupCM cm c = some []) :
    SubstituteParameters t cm = none := by
  unfold SubstituteParameters
  rw [substLoop_none_of_missing hc hmiss]
  rfl

theorem SubstituteParameters_template_eq {cm : CMatches} {t : QueryTemplate}
    {pq : ParameterizedQuery} (h : SubstituteParameters t cm = some pq) :
    pq.Template = t := by
  unfold SubstituteParameters at h
  cases h0 : substLoop cm t.Concepts [] t.Original with
  | none => rw [h0] at h; simp at h
  | some pr =>
    rw [h0] at h
    have h2 : ({ Template := t, Parameters := pr.1, ProcessedQuery := pr.2 } :
        ParameterizedQuery) = pq := by
      simpa using h
    rw [← h2]

theorem filterMap_skip_filter {f : QueryTemplate → Option ParameterizedQuery}
    {t : QueryTemplate} (hf : f t = none) (ts : List QueryTemplate) :
    ts.filterMap f = (ts.filter (fun u => decide (u ≠ t))).filterMap f := by
  induction ts with
  | nil => rfl
  | cons u rest ih =>
    by_cases hu : u = t
    · subst hu
      simp [List.filterMap_cons, List.filter_cons, hf, ih]
    · simp [List.filterMap_cons, List.filter_cons, hu, ih]

/-- Claim C6: a template with a required concept that is absent from the
concept-match map (or mapped to an empty group) yields no parameterized
query — nothing in the output carries that template — and the remaining
templates are processed exactly as if the failed template were not there. -/
theorem C6_missing_concept_fails_closed (ts : List QueryTemplate) (cm : CMatches)
    (t : QueryTemplate) (c : Str) (ht : t ∈ ts) (hc : c ∈ t.Concepts)
    (hmiss : lookupCM cm c = none ∨ lookupCM cm c = some []) :
    (∀ pq ∈ ProcessTemplatedQueries ts cm, pq.Template ≠ t) ∧
      ProcessTemplatedQueries ts cm =
        ProcessTemplatedQueries (ts.filter (fun u => decide (u ≠ t))) cm := by
  have hsub : SubstituteParameters t cm = none :=
    SubstituteParameters_none_of_missing hc hmiss
  have hft : (fun u => if u.Concepts = [] then none else SubstituteParameters u cm) t
      = none := by
    by_cases h : t.Concepts = []
    · simp [h]
    · simp [h, hsub]
  constructor
  · intro pq hpq heq
    unfold ProcessTemplatedQueries at hpq
    obtain ⟨u, hu, hfu⟩ := List.mem_filterMap.1 hpq
    by_cases hce : u.Concepts = []
    · rw [if_pos hce] at hfu
      exact absurd hfu (by simp)
    · rw [if_neg hce] at hfu
      have hut : u = t := (SubstituteParameters_template_eq hfu).symm.trans heq
      rw [hut, hsub] at hfu
      exact absurd hfu (by simp)
  · unfold ProcessTemplatedQueries
    exact filterMap_skip_filter hft ts

/-- A variable record for the C6 witness scenario. -/
def varC6 : VariableInfo :=
  { Name := strOf "is_active", Typ := [], Context := strOf "variable",
    ParentName := [], LineNumber := 3, Comments := [] }

/-- A template for C6 whose required concept has no match. -/
def tMissC6 : QueryTemplate :=
  ParseQueryTemplate (strOf "; Name: M\n; Concepts: ghost\n(x ${ghost})") (strOf "m.scm")

/-- A template for C6 whose required concept is matched. -/
def tOkC6 : QueryTemplate :=
  ParseQueryTemplate (strOf "; Name: K\n; Concepts: active\n(y ${active})") (strOf "k.scm")

/-- The concept-match map for the C6 witness scenario. -/
def cmC6 : CMatches :=
  [(strOf "active", [{ Variable := varC6, Concept := strOf "active",
                       SimilarityScore := 9 / 10 }])]

/-- Witness for C6 at a concrete pair of templates, one failing and one
succeeding. -/
theorem C6_missing_concept_fails_closed_witness :
    (tMissC6 ∈ [tMissC6, tOkC6] ∧ strOf "ghost" ∈ tMissC6.Concepts ∧
      lookupCM cmC6 (strOf "ghost") = none) ∧
    ((∀ pq ∈ ProcessTemplatedQueries [tMissC6, tOkC6] cmC6, pq.Template ≠ tMissC6) ∧
      ProcessTemplatedQueries [tMissC6, tOkC6] cmC6 =
        ProcessTemplatedQueries
          (([tMissC6, tOkC6]).filter (fun u => decide (u ≠ tMissC6))) cmC6) :=
  ⟨⟨List.mem_cons_self _ _,
    by rw [show tMissC6.Concepts = [strOf "ghost"] from rfl]; exact List.mem_singleton_self _,
    by decide⟩,
   C6_missing_concept_fails_closed [tMissC6, tOkC6] cmC6 tMissC6 (strOf "ghost")
     (List.mem_cons_self _ _)
     (by rw [show tMissC6.Concepts = [strOf "ghost"] from rfl]; exact List.mem_singleton_self _)
     (Or.inl (by decide))⟩

set_option allowUnsafeReducibility true

attribute [semireducible] Rat.add Rat.mul Rat.inv Rat.div Rat.sub

/-- Concept catalog for the C2 scenario: one concept with a unit reference
vector. -/
def conceptsC2 : List SecurityConcept :=
  [{ Name := strOf "active", Description := [], Synonyms := [],
     Embedding := { Vector := [1, 0, 0] } }]

/-- Squared norm of the offline embedding of the name a. -/
def qaC2 : ℚ := ((97 : ℚ) / 255) ^ 2

/-- Squared norm of the offline embedding of the name b. -/
def qbC2 : ℚ := ((98 : ℚ) / 255) ^ 2

/-- A square-root stand-in chosen so the two similarity scores come out as
four fifths and nine tenths. -/
def sqrtFnC2 : ℚ → ℚ := fun q =>
  if q = qaC2 then (97 : ℚ) / 255 * (5 / 4)
  else if q = qbC2 then (98 : ℚ) / 255 * (10 / 9)
  else if q = 1 then 1 else 0

/-- First extracted variable of the C2 scenario. -/
def vaC2 : VariableInfo :=
  { Name := strOf "a", Typ := [], Context := strOf "variable",
    ParentName := [], LineNumber := 1, Comments := [] }

/-- Second extracted variable of the C2 scenario. -/
def vbC2 : VariableInfo :=
  { Name := strOf "b", Typ := [], Context := strOf "variable",
    ParentName := [], LineNumber := 2, Comments := [] }

/-- The concept-match map the matcher produces for the C2 scenario. -/
def cmC2 : CMatches := MatchVariablesOffline sqrtFnC2 conceptsC2 [vaC2, vbC2]

/-- The template bound in the C2 scenario. -/
def tmplC2 : QueryTemplate :=
  ParseQueryTemplate (strOf "; Name: T\n; Concepts: active\n(f ${active})")
    (strOf "t.scm")

/-- Claim C2 fails on the code: the per-concept group of retained matches
is in variable-extraction order, not sorted by score — here the group for
the concept is the lower-scoring match (four fifths) before the
higher-scoring one (nine tenths) — and the binding takes the group head,
binding the lower-scoring identifier a instead of the best identifier b. -/
theorem C2_binding_takes_first_not_highest :
    lookupCM cmC2 (strOf "active") =
      some [{ Variable := vaC2, Concept := strOf "active", SimilarityScore := 4 / 5 },
            { Variable := vbC2, Concept := strOf "active", SimilarityScore := 9 / 10 }] ∧
    ((4 : ℚ) / 5 < 9 / 10) ∧
    (SubstituteParameters tmplC2 cmC2).map (fun pq => pq.Parameters) =
      some [(strOf "active", strOf "a")] := by
  refine ⟨by decide, by norm_num, by decide⟩

/-- Concept catalog for the C1 scenario. -/
def conceptsC1 : List SecurityConcept :=
  [{ Name := strOf "active", Description := [], Synonyms := [],
     Embedding := { Vector := [1, 0, 0] } }]

/-- The identifier captures extracted from the analysed file in the C1
scenario. -/
def capsC1 : List Capture := [{ text := strOf "is_active", row := 7 }]

/-- Squared norm of the offline embedding of the name is_active. -/
def naC1 : ℚ := ((105 : ℚ) / 255) ^ 2 + ((115 : ℚ) / 255) ^ 2 + ((95 : ℚ) / 255) ^ 2

/-- A square-root stand-in making the is_active similarity exactly 1. -/
def sqrtFnC1 : ℚ → ℚ := fun q =>
  if q = naC1 then (105 : ℚ) / 255 else if q = 1 then 1 else 0

/-- The loaded query set of the C1 scenario: a single templated query. -/
def queriesC1 : List (Str × Str) :=
  [(strOf "t.scm",
    strOf "; Name: T\n; Concepts: active\n(f (#not-match? @b \"${active}\"))")]

/-- Claim C1 fails on the code: analyzeSmartMain hands the full loaded
query map to RunQueries as the standard batch, so the templated query is
executed in its raw form — among the patterns handed to the executor there
is one still containing the unsubstituted placeholder — in addition to its
parameterized form (which carries the bound identifier). -/
theorem C1_raw_template_executed :
    (analyzeSmartExecutedPatterns sqrtFnC1 conceptsC1 capsC1 queriesC1).any
        (fun p => containsSub p (strOf "${active}")) = true ∧
    (analyzeSmartExecutedPatterns sqrtFnC1 conceptsC1 capsC1 queriesC1).any
        (fun p => containsSub p (strOf "is_active")) = true := by
  exact ⟨by decide, by decide⟩

/-- First plain query of the C8 scenario. -/
def qAC8 : Str × Str := (strOf "a.scm", strOf "(pa)")

/-- Second plain query of the C8 scenario. -/
def qBC8 : Str × Str := (strOf "b.scm", strOf "(pb)")

/-- An executor oracle that reports one match per query, capturing the
pattern text itself. -/
def execC8 : Str → Option (List Capture) := fun p => some [{ text := p, row := 0 }]

/-- Square-root stand-in for the C8 scenario (never reached: no concepts). -/
def sqrtFnC8 : ℚ → ℚ := fun _ => 0

/-- Claim C8, counterexample: two legitimate iteration orders of the same
two-entry query map produce differently ordered findings, so running the
pipeline twice against byte-identical input need not produce
byte-identical ordered findings — Go map iteration order is unspecified. -/
theorem C8_counterexample_order_depends_on_map_iteration :
    analyzeSmartOffline sqrtFnC8 [] [] [qAC8, qBC8] execC8 ≠
      analyzeSmartOffline sqrtFnC8 [] [] [qBC8, qAC8] execC8 := by decide

/-- Claim C8 as amended: with the offline strategy the pipeline is a
deterministic function of the input together with the map iteration order,
so two runs whose iteration orders agree produce identical ordered
findings, and any two runs over the same query map produce the same
findings up to permutation. -/
theorem C8_amended_findings_perm (sqrtFn : ℚ → ℚ) (concepts : List SecurityConcept)
    (captures : List Capture) (exec : Str → Option (List Capture))
    {q1 q2 : List (Str × Str)} (hperm : List.Perm q1 q2) :
    List.Perm (analyzeSmartOffline sqrtFn concepts captures q1 exec)
      (analyzeSmartOffline sqrtFn concepts captures q2 exec) := by
  unfold analyzeSmartOffline
  apply List.Perm.append
  · unfold RunQueries
    exact hperm.flatMap_right _
  · unfold ProcessTemplatedQueries
    exact (((hperm.map _).filterMap _).flatMap_right _)

/-- Witness for the amended C8 at the two concrete iteration orders. -/
theorem C8_amended_findings_perm_witness :
    List.Perm [qAC8, qBC8] [qBC8, qAC8] ∧
    List.Perm (analyzeSmartOffline sqrtFnC8 [] [] [qAC8, qBC8] execC8)
      (analyzeSmartOffline sqrtFnC8 [] [] [qBC8, qAC8] execC8) :=
  ⟨List.Perm.swap _ _ _,
   C8_amended_findings_perm sqrtFnC8 [] [] execC8 (List.Perm.swap _ _ _)⟩

/-- A decomposition element of a template body: a placeholder-free literal
segment or a placeholder occurrence. -/
inductive Chunk where
  | lit : Str → Chunk
  | hole : Str → Chunk
deriving DecidableEq

/-- The text of one chunk. -/
def renderChunk : Chunk → Str
  | .lit s => s
  | .hole c => placeholderToken c

/-- The text of a chunk decomposition. -/
def renderChunks (ks : List Chunk) : Str := (ks.map renderChunk).flatten

/-- Substituting a value for every hole with a given name. -/
def replaceHole (c v : Str) : Chunk → Chunk
  | .hole c2 => if c2 = c then .lit v else .hole c2
  | k => k

/-- Cleanliness of a chunk: literals carry no dollar sign, hole names
carry neither a dollar sign nor a closing brace. -/
def ChunkClean : Chunk → Prop
  | .lit s => '$' ∉ s
  | .hole c2 => '$' ∉ c2 ∧ '}' ∉ c2

/-- Well-formedness of a chunk against a concept list: clean, and every
hole names a declared concept. -/
def ChunkOK (cs : List Str) : Chunk → Prop
  | .lit s => '$' ∉ s
  | .hole c2 => c2 ∈ cs ∧ '$' ∉ c2 ∧ '}' ∉ c2

theorem renderChunks_nil : renderChunks [] = [] := rfl

theorem renderChunks_cons (k : Chunk) (ks : List Chunk) :
    renderChunks (k :: ks) = renderChunk k ++ renderChunks ks := by
  simp [renderChunks]

theorem scanPlaceholdersAux_no_dollar :
    ∀ (fuel : Nat) (s : Str), '$' ∉ s → scanPlaceholdersAux fuel s = [] := by
  intro fuel
  induction fuel with
  | zero => intro s _; rfl
  | succ f ih =>
    intro s hs
    cases s with
    | nil => rfl
    | cons c rest =>
      have hc : c ≠ '$' := fun h => hs (h ▸ List.mem_cons_self c rest)
      have hrest : '$' ∉ rest := fun h => hs (List.mem_cons_of_mem c h)
      simp only [scanPlaceholdersAux]
      rw [if_neg hc]
      exact ih rest hrest

theorem scanPlaceholders_no_dollar {s : Str} (hs : '$' ∉ s) :
    scanPlaceholders s = [] :=
  scanPlaceholdersAux_no_dollar s.length s hs

theorem no_dollar_renderChunks {ks : List Chunk}
    (h : ∀ k ∈ ks, ChunkOK [] k) : '$' ∉ renderChunks ks := by
  intro hmem
  unfold renderChunks at hmem
  rw [List.mem_flatten] at hmem
  obtain ⟨s, hs, hds⟩ := hmem
  rw [List.mem_map] at hs
  obtain ⟨k, hk, rfl⟩ := hs
  cases k with
  | lit l => exact (h _ hk) hds
  | hole c2 => exact absurd (h _ hk).1 (List.not_mem_nil c2)

theorem brace_guard :
    ∀ (u v : Str) (rest : Str), '}' ∉ u → '}' ∉ v → u ≠ v →
      (u ++ ['}']).isPrefixOf (v ++ ('}' :: rest)) = false := by
  intro u
  induction u with
  | nil =>
    intro v rest _ hv hne
    cases v with
    | nil => exact absurd rfl hne
    | cons b v2 =>
      have hb : b ≠ '}' := fun h => hv (h ▸ List.mem_cons_self b v2)
      simp [List.isPrefixOf, Ne.symm hb]
  | cons a u2 ih =>
    intro v rest hu hv hne
    have ha : a ≠ '}' := fun h => hu (h ▸ List.mem_cons_self a u2)
    cases v with
    | nil => simp [List.isPrefixOf, ha]
    | cons b v2 =>
      by_cases hab : a = b
      · subst hab
        have hu2 : '}' ∉ u2 := fun h => hu (List.mem_cons_of_mem a h)
        have hv2 : '}' ∉ v2 := fun h => hv (List.mem_cons_of_mem a h)
        have hne2 : u2 ≠ v2 := fun h => hne (h ▸ rfl)
        simp [List.isPrefixOf, ih v2 rest hu2 hv2 hne2]
      · simp [List.isPrefixOf, hab]

theorem tok_not_prefixOf {c c2 : Str} (hne : c ≠ c2) (hc : '}' ∉ c)
    (hc2 : '}' ∉ c2) (rest : Str) :
    (placeholderToken c).isPrefixOf (placeholderToken c2 ++ rest) = false := by
  have h := brace_guard c c2 rest hc hc2 hne
  simp only [placeholderToken, List.cons_append, List.append_assoc,
    List.singleton_append] at h ⊢
  simp [List.isPrefixOf, h]

theorem replaceAllAux_append_clean {ps v : Str} :
    ∀ (l rest : Str) (fuel : Nat), '$' ∉ l → (l ++ rest).length ≤ fuel →
      replaceAllAux ('$' :: ps) v fuel (l ++ rest) =
        l ++ replaceAllAux ('$' :: ps) v (fuel - l.length) rest := by
  intro l
  induction l with
  | nil => intro rest fuel _ _; simp
  | cons x xs ih =>
    intro rest fuel hl hfuel
    cases fuel with
    | zero => simp at hfuel
    | succ f =>
      have hx : x ≠ '$' := fun h => hl (h ▸ List.mem_cons_self x xs)
      have hxs : '$' ∉ xs := fun h => hl (List.mem_cons_of_mem x h)
      simp only [List.cons_append, replaceAllAux, List.append_eq]
      rw [if_neg]
      · have hb : (xs ++ rest).length ≤ f := by
          simp only [List.cons_append, List.length_cons, List.length_append] at hfuel
          simp only [List.length_append]
          omega
        rw [ih rest f hxs hb]
        have harith : f + 1 - (x :: xs).length = f - xs.length := by
          simp only [List.length_cons]
          omega
        rw [harith]
      · intro hcond
        have := hcond.2
        simp [List.isPrefixOf, Ne.symm hx] at this

theorem replaceAllAux_hit {pat v rest : Str} {f : Nat} (hp : pat ≠ []) :
    replaceAllAux pat v (f + 1) (pat ++ rest) =
      v ++ replaceAllAux pat v f rest := by
  cases pat with
  | nil => exact absurd rfl hp
  | cons p0 ps =>
    simp only [List.cons_append, replaceAllAux, List.append_eq]
    rw [if_pos]
    · rw [← List.cons_append, List.drop_left]
    · constructor
      · simp
      · rw [← List.cons_append, List.isPrefixOf_iff_prefix]
        exact List.prefix_append (p0 :: ps) rest

theorem replaceAll_chunks (c v : Str) (hcd : '$' ∉ c) (hcb : '}' ∉ c)
    (hv : '$' ∉ v) :
    ∀ (ks : List Chunk) (fuel : Nat), (∀ k ∈ ks, ChunkClean k) →
      (renderChunks ks).length ≤ fuel →
      replaceAllAux (placeholderToken c) v fuel (renderChunks ks) =
        renderChunks (ks.map (replaceHole c v)) := by
  intro ks
  induction ks with
  | nil =>
    intro fuel _ _
    cases fuel <;> rfl
  | cons k ks2 ih =>
    intro fuel hclean hfuel
    have hk := hclean k (List.mem_cons_self k ks2)
    have hks2 : ∀ k2 ∈ ks2, ChunkClean k2 :=
      fun k2 hk2 => hclean k2 (List.mem_cons_of_mem k hk2)
    rw [renderChunks_cons] at hfuel ⊢
    rw [List.map_cons, renderChunks_cons]
    cases k with
    | lit l =>
      simp only [renderChunk, replaceHole] at hk hfuel ⊢
      rw [show placeholderToken c = '$' :: ('{' :: (c ++ ['}'])) from rfl,
        replaceAllAux_append_clean l (renderChunks ks2) fuel hk hfuel,
        show ('$' :: ('{' :: (c ++ ['}']))) = placeholderToken c from rfl,
        ih (fuel - l.length) hks2 (by
          simp only [List.length_append] at hfuel
          omega)]
    | hole c2 =>
      obtain ⟨hc2d, hc2b⟩ := hk
      simp only [renderChunk, replaceHole] at hfuel ⊢
      by_cases hcc : c2 = c
      · subst hcc
        rw [if_pos rfl]
        cases fuel with
        | zero =>
          exfalso
          simp only [placeholderToken, List.length_append, List.length_cons] at hfuel
          omega
        | succ f =>
          rw [replaceAllAux_hit (by simp [placeholderToken])]
          rw [ih f hks2 (by
            simp only [placeholderToken, List.length_append, List.length_cons] at hfuel
            omega)]
      · rw [if_neg hcc]
        cases fuel with
        | zero =>
          exfalso
          simp only [placeholderToken, List.length_append, List.length_cons] at hfuel
          omega
        | succ f =>
          have hnp := tok_not_prefixOf (fun h => hcc h.symm) hcb hc2b (renderChunks ks2)
          have hshape : placeholderToken c2 ++ renderChunks ks2 =
              '$' :: (('{' :: (c2 ++ ['}'])) ++ renderChunks ks2) := by
            simp [placeholderToken]
          rw [hshape]
          simp only [replaceAllAux]
          rw [if_neg (by
            intro hcond
            rw [← hshape, hnp] at hcond
            exact absurd hcond.2 (by simp))]
          rw [show placeholderToken c = '$' :: ('{' :: (c ++ ['}'])) from rfl]
          rw [replaceAllAux_append_clean ('{' :: (c2 ++ ['}'])) (renderChunks ks2) f
            (by
              intro hmem
              rcases List.mem_cons.1 hmem with h | h
              · exact absurd h.symm (by decide)
              · rcases List.mem_append.1 h with h2 | h2
                · exact hc2d h2
                · have h3 := List.mem_singleton.1 h2
                  exact absurd h3.symm (by decide))
            (by
              simp only [placeholderToken, List.cons_append, List.length_cons,
                List.length_append] at hfuel ⊢
              omega)]
          rw [show ('$' :: ('{' :: (c ++ ['}']))) = placeholderToken c from rfl]
          rw [ih (f - ('{' :: (c2 ++ ['}'])).length) hks2 (by
            simp only [placeholderToken, List.cons_append, List.length_cons,
              List.length_append] at hfuel ⊢
            omega)]
          simp [placeholderToken]

theorem replaceAll_chunks_top (c v : Str) (hcd : '$' ∉ c) (hcb : '}' ∉ c)
    (hv : '$' ∉ v) (ks : List Chunk) (hclean : ∀ k ∈ ks, ChunkClean k) :
    replaceAll (placeholderToken c) v (renderChunks ks) =
      renderChunks (ks.map (replaceHole c v)) :=
  replaceAll_chunks c v hcd hcb hv ks (renderChunks ks).length hclean le_rfl

theorem substLoop_renders (cm : CMatches) :
    ∀ (cs : List Str) (ks : List Chunk) (params : List (Str × Str)),
      (∀ k ∈ ks, ChunkOK cs k) →
      (∀ c ∈ cs, '$' ∉ c ∧ '}' ∉ c) →
      (∀ c ∈ cs, ∃ m ms, lookupCM cm c = some (m :: ms) ∧ '$' ∉ m.Variable.Name) →
      ∃ params2 q2, substLoop cm cs params (renderChunks ks) = some (params2, q2) ∧
        '$' ∉ q2 := by
  intro cs
  induction cs with
  | nil =>
    intro ks params hwf _ _
    exact ⟨params, renderChunks ks, rfl, no_dollar_renderChunks hwf⟩
  | cons c cs2 ih =>
    intro ks params hwf hcs hbind
    obtain ⟨m, ms, hlook, hmv⟩ := hbind c (List.mem_cons_self c cs2)
    obtain ⟨hcd, hcb⟩ := hcs c (List.mem_cons_self c cs2)
    have hclean : ∀ k ∈ ks, ChunkClean k := by
      intro k hk
      have := hwf k hk
      cases k with
      | lit l => exact this
      | hole c2 => exact ⟨this.2.1, this.2.2⟩
    have hrw := replaceAll_chunks_top c m.Variable.Name hcd hcb hmv ks hclean
    have hwf2 : ∀ k ∈ ks.map (replaceHole c m.Variable.Name), ChunkOK cs2 k := by
      intro k hk
      rw [List.mem_map] at hk
      obtain ⟨k0, hk0, rfl⟩ := hk
      have h0 := hwf k0 hk0
      cases k0 with
      | lit l => exact h0
      | hole c2 =>
        by_cases hcc : c2 = c
        · simp only [replaceHole, if_pos hcc]
          exact hmv
        · simp only [replaceHole, if_neg hcc]
          exact ⟨(List.mem_cons.1 h0.1).resolve_left hcc, h0.2.1, h0.2.2⟩
    have hcs2 : ∀ c2 ∈ cs2, '$' ∉ c2 ∧ '}' ∉ c2 :=
      fun c2 h => hcs c2 (List.mem_cons_of_mem c h)
    have hbind2 : ∀ c2 ∈ cs2, ∃ m2 ms2, lookupCM cm c2 = some (m2 :: ms2) ∧
        '$' ∉ m2.Variable.Name :=
      fun c2 h => hbind c2 (List.mem_cons_of_mem c h)
    obtain ⟨p2, q2, hloop, hq2⟩ :=
      ih (ks.map (replaceHole c m.Variable.Name))
        (params ++ [(c, m.Variable.Name)]) hwf2 hcs2 hbind2
    refine ⟨p2, q2, ?_, hq2⟩
    simp only [substLoop, hlook]
    rw [hrw]
    exact hloop

/-- Claim C3 as amended: for a template whose body decomposes into
placeholder-free literal segments and placeholder tokens that all name
declared required concepts, when every required concept has at least one
match (with identifier names free of the placeholder-forming dollar sign,
as extracted identifiers are), the produced parameterized query exists and
its resolved text contains zero placeholder occurrences. -/
theorem C3_amended_no_placeholder_left (template : QueryTemplate) (cm : CMatches)
    (ks : List Chunk)
    (hdec : template.Original = renderChunks ks)
    (hwf : ∀ k ∈ ks, ChunkOK template.Concepts k)
    (hcs : ∀ c ∈ template.Concepts, '$' ∉ c ∧ '}' ∉ c)
    (hbind : ∀ c ∈ template.Concepts, ∃ m ms, lookupCM cm c = some (m :: ms) ∧
      '$' ∉ m.Variable.Name) :
    ∃ pq, SubstituteParameters template cm = some pq ∧
      scanPlaceholders pq.ProcessedQuery = [] := by
  obtain ⟨p2, q2, hloop, hq2⟩ :=
    substLoop_renders cm template.Concepts ks [] hwf hcs hbind
  refine ⟨{ Template := template, Parameters := p2, ProcessedQuery := q2 }, ?_, ?_⟩
  · unfold SubstituteParameters
    rw [hdec, hloop]
    rfl
  · exact scanPlaceholders_no_dollar hq2

/-- A variable record for the C3 scenarios. -/
def varC3 : VariableInfo :=
  { Name := strOf "is_active", Typ := [], Context := strOf "variable",
    ParentName := [], LineNumber := 3, Comments := [] }

/-- The single concept match of the C3 scenarios. -/
def mC3 : ConceptMatch :=
  { Variable := varC3, Concept := strOf "active", SimilarityScore := 9 / 10 }

/-- The concept-match map of the C3 scenarios: the concept named active
has exactly one match. -/
def cmC3 : CMatches := [(strOf "active", [mC3])]

/-- A template declaring only the concept active while its body also
contains an undeclared placeholder. -/
def tmplC3 : QueryTemplate :=
  ParseQueryTemplate
    (strOf "; Name: C\n; Concepts: active\n(q ${active} ${locked})")
    (strOf "c.scm")

/-- Claim C3, counterexample: every required concept of the template is
present in the concept-match map with a match, substitution succeeds, yet
the resolved text still contains a placeholder token — substitution only
replaces placeholders named in the declared concept list, so the
undeclared placeholder survives. -/
theorem C3_counterexample_undeclared_placeholder_survives :
    tmplC3.Concepts = [strOf "active"] ∧
    lookupCM cmC3 (strOf "active") = some [mC3] ∧
    (SubstituteParameters tmplC3 cmC3).map
        (fun pq => scanPlaceholders pq.ProcessedQuery) =
      some [strOf "locked"] := by
  exact ⟨by decide, by decide, by decide⟩

/-- The chunk decomposition of the C3 witness template body. -/
def ksW3 : List Chunk :=
  [.lit (strOf "(q "), .hole (strOf "active"), .lit (strOf ")")]

/-- The C3 witness template: its body is the rendering of the
decomposition and its only placeholder names its only declared concept. -/
def tW3 : QueryTemplate :=
  { Name := strOf "W", Description := [], Concepts := [strOf "active"],
    Source := strOf "w.scm", Original := renderChunks ksW3,
    Parameters := [strOf "active"] }

/-- Witness for the amended C3 at a concrete decomposed template. -/
theorem C3_amended_no_placeholder_left_witness :
    tW3.Original = renderChunks ksW3 ∧
    (∃ pq, SubstituteParameters tW3 cmC3 = some pq ∧
      scanPlaceholders pq.ProcessedQuery = []) :=
  ⟨rfl,
   C3_amended_no_placeholder_left tW3 cmC3 ksW3 rfl
     (by
       intro k hk
       simp only [ksW3, List.mem_cons, List.mem_singleton,
         List.not_mem_nil, or_false] at hk
       rcases hk with rfl | rfl | rfl
       · show ChunkOK _ (Chunk.lit (strOf "(q "))
         simp only [ChunkOK]
         decide
       · show ChunkOK tW3.Concepts (Chunk.hole (strOf "active"))
         simp only [ChunkOK, tW3]
         exact ⟨List.mem_singleton_self _, by decide, by decide⟩
       · show ChunkOK _ (Chunk.lit (strOf ")"))
         simp only [ChunkOK]
         decide)
     (by
       intro c hc
       simp only [tW3, List.mem_singleton] at hc
       subst hc
       exact ⟨by decide, by decide⟩)
     (by
       intro c hc
       simp only [tW3, List.mem_singleton] at hc
       subst hc
       exact ⟨mC3, [], by decide, by decide⟩)⟩

end Solidair
